import Mathlib

/-!
# Verification of the ggfm conversation-template and preprocessing logic

This file embeds the self-contained string-processing logic of
`examples/graphgpt/nc_ft.py` (conversation templates, label masking for
supervised fine-tuning, graph-token expansion, dataset item contracts) and
`examples/sgformer/lp_ft.py` (`NCDataset`) into Lean, and proves or refutes
the specification's claims about it.

Python strings are modelled as `List Char`; Python `int` values that can be
negative (indices, label sentinels, token ids) as `Int`; the Hugging Face
tokenizer, which is an external library, is a parameter `tok : Str → Nat`
giving the length of `tokenizer(s).input_ids` (resp. `enc` for the raw
token count without the leading BOS token where a claim needs that split).
-/

set_option linter.unusedVariables false

namespace Ggfm

/-- Characters of a Python `str`. -/
abbrev Str := List Char

/-- `IGNORE_INDEX = -100` (nc_ft.py line 27). -/
def IGNORE_INDEX : Int := -100

/-- `DEFAULT_GRAPH_TOKEN = "<graph>"` (nc_ft.py line 32). -/
def DEFAULT_GRAPH_TOKEN : Str := "<graph>".data

/-- `DEFAULT_GRAPH_PATCH_TOKEN = "<g_patch>"` (nc_ft.py line 33). -/
def DEFAULT_GRAPH_PATCH_TOKEN : Str := "<g_patch>".data

/-- `DEFAULT_G_START_TOKEN = "<g_start>"` (nc_ft.py line 34). -/
def DEFAULT_G_START_TOKEN : Str := "<g_start>".data

/-- `DEFAULT_G_END_TOKEN = "<g_end>"` (nc_ft.py line 35). -/
def DEFAULT_G_END_TOKEN : Str := "<g_end>".data

/-- Does `pat` occur in `s` starting at position `i`? -/
def occAt (pat s : Str) (i : Nat) : Bool := pat.isPrefixOf (s.drop i)

/-- Index of the leftmost occurrence of `pat` in `s`, if any. -/
def pyFindPos (pat s : Str) : Option Nat :=
  (List.range (s.length + 1)).find? (fun i => occAt pat s i)

/-- Python `s.find(pat)`: leftmost occurrence index, `-1` if absent. -/
def pyFind (pat s : Str) : Int :=
  match pyFindPos pat s with
  | some i => (i : Int)
  | none => -1

/-- Python `pat in s`. -/
def pyContains (pat s : Str) : Bool := (pyFindPos pat s).isSome

/-- Number of positions at which `pat` occurs in `s` (all start positions;
for the separators used by the claims, occurrences cannot overlap, so this
agrees with Python's non-overlapping `s.count(pat)`). -/
def countOcc (pat s : Str) : Nat :=
  (List.range (s.length + 1)).countP (fun i => occAt pat s i)

/-- Normalisation of a Python slice endpoint `i` for a sequence of length
`len`: negative values count from the end, and the result is clamped to
`[0, len]`. -/
def pyIdx (len : Nat) (i : Int) : Nat :=
  if i < 0 then len - (-i).toNat else min i.toNat len

/-- Python `s[:i]` for an arbitrary (possibly negative) `i`. -/
def pySliceTo (s : Str) (i : Int) : Str := s.take (pyIdx s.length i)

/-- Python `s[i:]` for an arbitrary (possibly negative) `i`. -/
def pySliceFrom (s : Str) (i : Int) : Str := s.drop (pyIdx s.length i)

/-- Fuel-driven worker for Python `str.split` (leftmost match, then continue
after the matched separator; a trailing match leaves an empty final piece). -/
def splitGo (pat : Str) : Nat → Str → List Str
  | 0, s => [s]
  | _ + 1, [] => [[]]
  | fuel + 1, c :: t =>
    if pat.isPrefixOf (c :: t) then
      [] :: splitGo pat fuel (t.drop (pat.length - 1))
    else
      match splitGo pat fuel t with
      | [] => [[c]]
      | piece :: rest => (c :: piece) :: rest

/-- Python `s.split(pat)` for nonempty `pat` (the repository never splits on
an empty separator, which Python rejects with a ValueError; here the empty
separator returns `[s]`). -/
def pySplit (pat s : Str) : List Str :=
  if pat = [] then [s] else splitGo pat (s.length + 1) s

/-- Fuel-driven worker for Python `str.replace`: each leftmost occurrence of
`pat` is replaced by `new`, scanning resumes after the occurrence and never
rescans the inserted replacement. -/
def replaceGo (pat new : Str) : Nat → Str → Str
  | 0, s => s
  | _ + 1, [] => []
  | fuel + 1, c :: t =>
    if pat.isPrefixOf (c :: t) then
      new ++ replaceGo pat new fuel (t.drop (pat.length - 1))
    else
      c :: replaceGo pat new fuel t

/-- Python `s.replace(pat, new)` for nonempty `pat`. -/
def pyReplace (s pat new : Str) : Str :=
  if pat = [] then s else replaceGo pat new (s.length + 1) s

/-- `SeparatorStyle.SINGLE` (nc_ft.py line 226). The three members of the
closed `SeparatorStyle` enum are modelled by their `auto()` values 1, 2, 3;
any other natural number models a value outside the enumeration, which
Python's `==` compares unequal to all three members. -/
def SeparatorStyle.SINGLE : Nat := 1

/-- `SeparatorStyle.TWO` (nc_ft.py line 227). -/
def SeparatorStyle.TWO : Nat := 2

/-- `SeparatorStyle.MPT` (nc_ft.py line 228). -/
def SeparatorStyle.MPT : Nat := 3

/-- The `conversation_lib` dataclass (nc_ft.py lines 231-243).  A message
text of `[]` models both Python `None` and `""`, which behave identically in
`get_prompt` (both are falsy); the image-tuple message variant is not used
by any claim and is omitted. -/
structure Conversation where
  system : Str
  roles : List Str
  messages : List (Str × Str)
  offset : Nat
  sepStyle : Nat := SeparatorStyle.SINGLE
  sep : Str := "###".data
  sep2 : Str := []
  version : Str := "Unknown".data
  skipNext : Bool := false

/-- The turn loop of the `SeparatorStyle.SINGLE` branch of `get_prompt`
(nc_ft.py lines 248-254): `ret += role + ": " + message + self.sep` for a
truthy message, `ret += role + ":"` otherwise. -/
def turnsSingle (sep : Str) : List (Str × Str) → Str
  | [] => []
  | (role, msg) :: rest =>
    (if msg ≠ [] then role ++ ": ".data ++ msg ++ sep else role ++ [':']) ++
      turnsSingle sep rest

/-- The turn loop of the `SeparatorStyle.TWO` branch of `get_prompt`
(nc_ft.py lines 259-265): the separator after turn `i` is `seps[i % 2]`. -/
def turnsTwo (sep sep2 : Str) : List (Str × Str) → Nat → Str
  | [], _ => []
  | (role, msg) :: rest, i =>
    (if msg ≠ [] then
        role ++ ": ".data ++ msg ++ (if i % 2 = 0 then sep else sep2)
      else role ++ [':']) ++
      turnsTwo sep sep2 rest (i + 1)

/-- The turn loop of the `SeparatorStyle.MPT` branch of `get_prompt`
(nc_ft.py lines 269-275): `ret += role + message + self.sep` for a truthy
message, `ret += role` otherwise. -/
def turnsMPT (sep : Str) : List (Str × Str) → Str
  | [] => []
  | (role, msg) :: rest =>
    (if msg ≠ [] then role ++ msg ++ sep else role) ++ turnsMPT sep rest

/-- `conversation_lib.get_prompt` (nc_ft.py lines 245-278).  The Python body
is `if SINGLE ... elif TWO ...` followed by a separate `if MPT ... else
raise ValueError`; since the first two branches return, the control flow is
the if-chain below. -/
def Conversation.getPrompt (c : Conversation) : Except Str Str :=
  if c.sepStyle = SeparatorStyle.SINGLE then
    .ok (c.system ++ c.sep ++ turnsSingle c.sep c.messages)
  else if c.sepStyle = SeparatorStyle.TWO then
    .ok (c.system ++ c.sep ++ turnsTwo c.sep c.sep2 c.messages 0)
  else if c.sepStyle = SeparatorStyle.MPT then
    .ok (c.system ++ c.sep ++ turnsMPT c.sep c.messages)
  else
    .error "Invalid style".data

/-- `conversation_lib.copy` (nc_ft.py lines 363-371): the constructor call
passes `system`, `roles`, a freshly built messages list `[[x, y] for x, y in
self.messages]`, `offset`, `sep_style`, `sep` and `sep2`, and omits
`version` and `skip_next`, which therefore take their dataclass defaults
`"Unknown"` and `False`. -/
def Conversation.copy (c : Conversation) : Conversation :=
  { system := c.system
    roles := c.roles
    messages := c.messages.map (fun p => (p.1, p.2))
    offset := c.offset
    sepStyle := c.sepStyle
    sep := c.sep
    sep2 := c.sep2 }

/-- The expansion string `replace_token` of `preprocess_graph` /
`preprocess_graph_LP` (nc_ft.py lines 804-806 and 833-837):
`DEFAULT_GRAPH_PATCH_TOKEN * n`, bracketed by the start/end tokens when
`use_graph_start_end` is set. -/
def replaceToken (n : Nat) (useGraphStartEnd : Bool) : Str :=
  let r := (List.replicate n DEFAULT_GRAPH_PATCH_TOKEN).flatten
  if useGraphStartEnd then DEFAULT_G_START_TOKEN ++ r ++ DEFAULT_G_END_TOKEN
  else r

/-- The per-sentence transformation of `preprocess_graph` (nc_ft.py lines
803-807): `sentence["value"].replace(DEFAULT_GRAPH_TOKEN, replace_token)`.
The sources-level function maps this over every sentence of every source;
the `sep_graph_conv_front` front-rewriting branch (lines 798-802) is not
touched by any claim and is modelled for the `False` setting used by it. -/
def preprocessGraphValue (v : Str) (n : Nat) (useGraphStartEnd : Bool) : Str :=
  pyReplace v DEFAULT_GRAPH_TOKEN (replaceToken n useGraphStartEnd)

/-- Scan-and-delete removal of every leftmost `<graph>` marker, written
directly from the spec's words "identical to the input with each `<graph>`
marker removed" for comparison with `preprocessGraphValue` (refinement
definition, not taken from the code). -/
def removeMarkersGo : Nat → Str → Str
  | 0, s => s
  | _ + 1, [] => []
  | fuel + 1, c :: t =>
    if DEFAULT_GRAPH_TOKEN.isPrefixOf (c :: t) then
      removeMarkersGo fuel (t.drop (DEFAULT_GRAPH_TOKEN.length - 1))
    else
      c :: removeMarkersGo fuel t

/-- Entry point of the spec-side marker removal. -/
def removeMarkersSpec (s : Str) : Str := removeMarkersGo (s.length + 1) s

/-- The per-sentence transformation of `preprocess_graph_LP` (nc_ft.py lines
839-849): if `<graph>` occurs, splice `replace_token_1` over the first
occurrence (found by `str.find`), then splice `replace_token_2` over the
first occurrence found in the result.  The second `find` is unchecked in the
Python code, so its `-1` (absent) result flows into the slices; Python's
negative-index slicing is reproduced by `pySliceTo`/`pySliceFrom`. -/
def preprocessGraphLPValue (v : Str) (n1 n2 : Nat) (useGraphStartEnd : Bool) : Str :=
  if pyContains DEFAULT_GRAPH_TOKEN v then
    let r1 := replaceToken n1 useGraphStartEnd
    let r2 := replaceToken n2 useGraphStartEnd
    let i1 := pyFind DEFAULT_GRAPH_TOKEN v
    let v1 := pySliceTo v i1 ++ r1 ++ pySliceFrom v (i1 + DEFAULT_GRAPH_TOKEN.length)
    let i2 := pyFind DEFAULT_GRAPH_TOKEN v1
    pySliceTo v1 i2 ++ r2 ++ pySliceFrom v1 (i2 + DEFAULT_GRAPH_TOKEN.length)
  else v

/-- `target[a:b] = IGNORE_INDEX` on a row of (already normalised,
nonnegative) positions: entries with index in `[a, b)` become the sentinel. -/
def maskFrom : Nat → Nat → List Int → List Int
  | _, _, [] => []
  | a, b, x :: xs =>
    (if a = 0 ∧ 0 < b then IGNORE_INDEX else x) :: maskFrom (a - 1) (b - 1) xs

/-- `target[a:b] = IGNORE_INDEX` for arbitrary Python slice endpoints. -/
def pyMask (t : List Int) (a b : Int) : List Int :=
  maskFrom (pyIdx t.length a) (pyIdx t.length b) t

/-- The round loop of `preprocess_v1` (nc_ft.py lines 899-912), masking the
instruction part of each round: `rounds` is walked with cursor `cur`;
an empty round or a round that does not split into exactly two parts on
`sepFull = conv.sep + conv.roles[1] + ": "` breaks the loop.  `tok s` is
`len(tokenizer(s).input_ids)`. -/
def maskRounds (tok : Str → Nat) (sepFull : Str) :
    List Str → Nat → List Int → List Int × Nat
  | [], cur, t => (t, cur)
  | rou :: rest, cur, t =>
    if rou = [] then (t, cur)
    else
      let parts := pySplit sepFull rou
      if parts.length ≠ 2 then (t, cur)
      else
        let roundLen := tok rou
        let instructionLen : Int := (tok (parts.headD [] ++ sepFull) : Int) - 2
        let t2 := pyMask t (cur : Int) ((cur : Int) + instructionLen)
        maskRounds tok sepFull rest (cur + roundLen) t2

/-- The cursor value accumulated by the round loop (it does not depend on the
masked row, only on the rounds). -/
def roundsCur (tok : Str → Nat) (sepFull : Str) : List Str → Nat → Nat
  | [], cur => cur
  | rou :: rest, cur =>
    if rou = [] then cur
    else if (pySplit sepFull rou).length ≠ 2 then cur
    else roundsCur tok sepFull rest (cur + tok rou)

/-- The cursor `cur_len` reached for one conversation in `preprocess_v1`. -/
def curLenV1 (tok : Str → Nat) (sep sep2 role1 conversation : Str) : Nat :=
  roundsCur tok (sep ++ role1 ++ ": ".data) (pySplit sep2 conversation) 1

/-- Number of non-padding entries of a target row:
`int(target.ne(tokenizer.pad_token_id).sum())` (nc_ft.py line 894). -/
def totalLenOf (padId : Int) (target : List Int) : Nat :=
  target.countP (fun x => decide (x ≠ padId))

/-- Number of label positions not equal to the ignore sentinel `-100`. -/
def countKept (t : List Int) : Nat :=
  t.countP (fun x => decide (x ≠ IGNORE_INDEX))

/-- The per-example "Mask targets" body of `preprocess_v1` (nc_ft.py lines
892-921) for one conversation string and its tokenised row `target` (a clone
of the example's padded `input_ids` row).  Returns the masked labels row and
whether the tokenization-mismatch warning was printed.  `sep`, `sep2`,
`role1` are `conv.sep`, `conv.sep2`, `conv.roles[1]` of the template;
`maxLen` is `tokenizer.model_max_length`. -/
def maskTargetV1 (tok : Str → Nat) (padId : Int) (maxLen : Nat)
    (sep sep2 role1 : Str) (conversation : Str) (target : List Int) :
    List Int × Bool :=
  let sepFull := sep ++ role1 ++ ": ".data
  let totalLen := totalLenOf padId target
  let rounds := pySplit sep2 conversation
  let t0 := pyMask target 0 1
  let p := maskRounds tok sepFull rounds 1 t0
  let t2 := pyMask p.1 (p.2 : Int) (p.1.length : Int)
  if p.2 < maxLen ∧ p.2 ≠ totalLen then
    (t2.map (fun _ => IGNORE_INDEX), true)
  else (t2, false)

/-- The (input_ids, labels) result of `preprocess_v1` (nc_ft.py lines
879-926) with the prompt rendering and the external tokenizer abstracted:
`conversations` are the rendered prompts and `inputIds` the rows of the
padded `input_ids` batch; `targets = input_ids.clone()` is masked per
example, `input_ids` is returned untouched. -/
def preprocessV1 (tok : Str → Nat) (padId : Int) (maxLen : Nat)
    (sep sep2 role1 : Str) (conversations : List Str)
    (inputIds : List (List Int)) :
    List (List Int) × List (List Int × Bool) :=
  (inputIds,
    List.zipWith (fun conv t => maskTargetV1 tok padId maxLen sep sep2 role1 conv t)
      conversations inputIds)

/-- A Python sequence index: either an `int` or a (nonnegative, step-1)
slice. -/
inductive PyIdx where
  | int : Nat → PyIdx
  | slice : Nat → Nat → PyIdx

/-- Python `l[a:b]` for nonnegative bounds. -/
def pySliceList (l : List α) (a b : Nat) : List α := (l.drop a).take (b - a)

/-- Indexing result: a single row for an `int` index, a list of rows for a
slice. -/
inductive Rows where
  | one : List Int → Rows
  | many : List (List Int) → Rows

/-- The eager `SupervisedDataset` after construction (nc_ft.py lines
1035-1055): it holds the preprocessed `input_ids` and `labels`. -/
structure SupervisedDataset where
  inputIds : List (List Int)
  labels : List (List Int)

/-- `SupervisedDataset.__getitem__` (nc_ft.py lines 1054-1055): it simply
returns `dict(input_ids=self.input_ids[i], labels=self.labels[i])` with no
assertion of any kind, for `int` and slice indices alike. -/
def SupervisedDataset.getitem (d : SupervisedDataset) : PyIdx → Except Unit (Rows × Rows)
  | .int n => .ok (.one (d.inputIds.getD n []), .one (d.labels.getD n []))
  | .slice a b => .ok (.many (pySliceList d.inputIds a b), .many (pySliceList d.labels a b))

/-- The lazy `LazySupervisedDataset` (nc_ft.py lines 1058-1074): `ρ` is the
type of one conversation record of `list_data_dict`. -/
structure LazySupervisedDataset (ρ : Type) where
  listDataDict : List ρ

/-- The entry contract of `LazySupervisedDataset.__getitem__` (nc_ft.py
lines 1079-1083): `sources = self.list_data_dict[i]`, an `int` index is
wrapped into a singleton list, and `assert len(sources) == 1` aborts on any
multi-record (or empty) selection.  The graph/tokenizer processing that
follows the assertion is external tensor work and is not needed by the
claims, so the checked `sources` list is returned. -/
def LazySupervisedDataset.sourcesAt [Inhabited ρ] (d : LazySupervisedDataset ρ) :
    PyIdx → List ρ
  | .int n => [d.listDataDict.getD n default]
  | .slice a b => pySliceList d.listDataDict a b

/-- The assertion-guarded selection of `LazySupervisedDataset.__getitem__`. -/
def LazySupervisedDataset.getitemSources [Inhabited ρ] (d : LazySupervisedDataset ρ)
    (i : PyIdx) : Except Unit (List ρ) :=
  let sources := d.sourcesAt i
  if sources.length = 1 then .ok sources else .error ()

/-- `NCDataset` of lp_ft.py (lines 477-534), reduced to its public item
interface: `name`, a `graph` payload and a `label` payload. -/
structure NCDataset (G L : Type) where
  name : Str
  graph : G
  label : L

/-- `NCDataset.__len__` (lp_ft.py lines 530-531): always 1. -/
def NCDataset.len (_ : NCDataset G L) : Nat := 1

/-- `NCDataset.__getitem__` (lp_ft.py lines 526-528): `assert idx == 0`,
then return `(self.graph, self.label)`. -/
def NCDataset.getitem (d : NCDataset G L) (idx : Int) : Except Str (G × L) :=
  if idx = 0 then .ok (d.graph, d.label)
  else .error "This dataset has only one graph".data

/-- The two-turn conversation of the spec's exact-literal rendering example:
turns `["human: hi", "gpt: hello"]`, two-separator style, `sep = " "`,
`sep2 = "</s>"`, system prompt `"<system>"`. -/
def conv4 : Conversation :=
  { system := "<system>".data
    roles := ["human".data, "gpt".data]
    messages := [("human".data, "hi".data), ("gpt".data, "hello".data)]
    offset := 0
    sepStyle := SeparatorStyle.TWO
    sep := " ".data
    sep2 := "</s>".data }

/-- A single-separator conversation whose only turn has an empty message:
the dangling `role + ":"` branch of `get_prompt` appends no separator. -/
def conv5 : Conversation :=
  { system := "s".data
    roles := ["r".data]
    messages := [("r".data, [])]
    offset := 0
    sepStyle := SeparatorStyle.SINGLE
    sep := "#".data }

/-- A two-example eager dataset used to exercise `SupervisedDataset.__getitem__`
on a multi-record (slice) index. -/
def eagerDs : SupervisedDataset :=
  { inputIds := [[1], [2]], labels := [[3], [4]] }

end Ggfm

namespace Ggfm

/- Helper lemmas shared by the claim theorems. -/

/-- Rebuilding each `(x, y)` pair of a list rebuilds the list. -/
theorem map_pair_eta (l : List (Str × Str)) : l.map (fun p => (p.1, p.2)) = l := by
  induction l with
  | nil => rfl
  | cons p rest ih => simp [ih]

/-- `replaceGo` with an empty replacement is exactly scan-and-delete. -/
theorem replaceGo_nil_marker (fuel : Nat) (s : Str) :
    replaceGo DEFAULT_GRAPH_TOKEN [] fuel s = removeMarkersGo fuel s := by
  induction fuel generalizing s with
  | zero => rfl
  | succ n ih =>
    cases s with
    | nil => rfl
    | cons c t =>
      simp only [replaceGo, removeMarkersGo]
      split
      · simpa using ih _
      · simpa using ih t

/-- Claim C4 counterexample: on the spec's two-turn example the rendered
prompt is not the spec's literal `"<system> human: hi </s>gpt: hello</s>"`
(the separator after the first, even-indexed turn is `sep = " "`, not
`sep2`). -/
theorem c4_counterexample :
    conv4.getPrompt ≠ .ok "<system> human: hi </s>gpt: hello</s>".data := by
  have h : conv4.getPrompt = .ok "<system> human: hi gpt: hello</s>".data := rfl
  rw [h]
  intro hc
  have h2 := Except.ok.inj hc
  exact absurd h2 (by decide)

/-- Claim C4 (amended): the two-turn conversation `["human: hi",
"gpt: hello"]` under `SeparatorStyle.TWO` with `sep = " "`, `sep2 = "</s>"`
renders to the exact literal `"<system> human: hi gpt: hello</s>"`: `sep2`
follows only the odd-indexed (assistant) turn, `sep` follows the
even-indexed turn. -/
theorem c4_two_style_prompt :
    conv4.getPrompt = .ok "<system> human: hi gpt: hello</s>".data := rfl

/-- Claim C7: `get_prompt` returns a prompt for each of the three members of
the closed `SeparatorStyle` enumeration and raises `ValueError` for every
value outside it (non-member values are modelled as naturals different from
the three member values, which Python compares unequal to all members). -/
theorem c7_getPrompt_total_on_styles (c : Conversation) :
    ((c.sepStyle = SeparatorStyle.SINGLE ∨ c.sepStyle = SeparatorStyle.TWO ∨
        c.sepStyle = SeparatorStyle.MPT) → ∃ s, c.getPrompt = .ok s) ∧
    (c.sepStyle ≠ SeparatorStyle.SINGLE → c.sepStyle ≠ SeparatorStyle.TWO →
      c.sepStyle ≠ SeparatorStyle.MPT →
      c.getPrompt = .error "Invalid style".data) := by
  constructor
  · intro h
    rcases h with h | h | h <;>
      simp [Conversation.getPrompt, h, SeparatorStyle.SINGLE, SeparatorStyle.TWO,
        SeparatorStyle.MPT]
  · intro h1 h2 h3
    simp [Conversation.getPrompt, h1, h2, h3]

/-- Witness for C7: a style-1 conversation renders, a style-7 value (outside
the enumeration) raises. -/
theorem c7_witness :
    (∃ s, Conversation.getPrompt
        { system := [], roles := [], messages := [], offset := 0,
          sepStyle := 1, sep := [], sep2 := [] } = .ok s) ∧
    Conversation.getPrompt
        { system := [], roles := [], messages := [], offset := 0,
          sepStyle := 7, sep := [], sep2 := [] } =
      .error "Invalid style".data :=
  ⟨(c7_getPrompt_total_on_styles _).1 (Or.inl rfl),
   (c7_getPrompt_total_on_styles _).2 (by decide) (by decide) (by decide)⟩

/-- Claim C9: `copy()` preserves `system`, `roles`, `messages` (element-wise),
`offset`, `sep_style`, `sep` and `sep2`, while `version` is always reset to
the dataclass default `"Unknown"` (even when the original is `"v1"`) and
`skip_next` to `False`; object-identity freshness of the rebuilt messages
list is not observable in a value semantics. -/
theorem c9_copy_fields (c : Conversation) :
    c.copy.system = c.system ∧ c.copy.roles = c.roles ∧
    c.copy.messages = c.messages ∧ c.copy.offset = c.offset ∧
    c.copy.sepStyle = c.sepStyle ∧ c.copy.sep = c.sep ∧
    c.copy.sep2 = c.sep2 ∧ c.copy.version = "Unknown".data ∧
    c.copy.skipNext = false ∧
    (Conversation.copy { c with version := "v1".data }).version ≠
      "v1".data := by
  refine ⟨rfl, rfl, map_pair_eta _, rfl, rfl, rfl, rfl, rfl, rfl, ?_⟩
  show ("Unknown".data : Str) ≠ "v1".data
  decide

/-- Claim C10: `NCDataset` is a single-graph container: `__len__` is 1,
`__getitem__(0)` returns the `(graph, label)` pair of the (unmodified)
dataset, and any other index fails the `assert idx == 0`. -/
theorem c10_ncdataset_single (G L : Type) (d : NCDataset G L) :
    d.len = 1 ∧ d.getitem 0 = .ok (d.graph, d.label) ∧
    ∀ idx : Int, idx ≠ 0 →
      d.getitem idx = .error "This dataset has only one graph".data := by
  refine ⟨rfl, rfl, fun idx h => ?_⟩
  simp [NCDataset.getitem, h]

/-- Witness for C10 at a concrete dataset and the concrete index 1. -/
theorem c10_witness :
    NCDataset.getitem (G := Nat) (L := Nat) ⟨[], 5, 6⟩ 1 =
      .error "This dataset has only one graph".data :=
  (c10_ncdataset_single Nat Nat ⟨[], 5, 6⟩).2.2 1 (by decide)

/-- Claim C8 counterexample: the eager `SupervisedDataset.__getitem__` has no
assertion: a slice index selecting two records returns data instead of
failing. -/
theorem c8_counterexample :
    (pySliceList eagerDs.inputIds 0 2).length = 2 ∧
    eagerDs.getitem (.slice 0 2) =
      .ok (.many [[1], [2]], .many [[3], [4]]) := by
  constructor
  · decide
  · rfl

/-- Claim C8 (amended): only the lazy variant enforces the one-record
contract: `LazySupervisedDataset.__getitem__` fails its assertion exactly
when the index selects a number of records different from one, while the
eager `SupervisedDataset.__getitem__` never fails, whatever the index
selects. -/
theorem c8_one_record_contract :
    (∀ (ρ : Type) [Inhabited ρ] (d : LazySupervisedDataset ρ) (i : PyIdx),
      ((d.sourcesAt i).length ≠ 1 → d.getitemSources i = .error ()) ∧
      ((d.sourcesAt i).length = 1 → d.getitemSources i = .ok (d.sourcesAt i))) ∧
    (∀ (e : SupervisedDataset) (j : PyIdx), ∃ r, e.getitem j = .ok r) := by
  constructor
  · intro ρ _ d i
    constructor
    · intro h
      simp [LazySupervisedDataset.getitemSources, h]
    · intro h
      simp [LazySupervisedDataset.getitemSources, h]
  · intro e j
    cases j <;> exact ⟨_, rfl⟩

/-- Witness for C8 (amended): a three-record lazy dataset fails on a
two-record slice and succeeds on an `int` index; the eager dataset succeeds
on a two-record slice. -/
theorem c8_witness :
    LazySupervisedDataset.getitemSources (ρ := Nat) ⟨[1, 2, 3]⟩ (.slice 0 2) =
        .error () ∧
    LazySupervisedDataset.getitemSources (ρ := Nat) ⟨[1, 2, 3]⟩ (.int 0) =
        .ok [1] ∧
    ∃ r, eagerDs.getitem (.slice 0 2) = .ok r :=
  ⟨(c8_one_record_contract.1 Nat ⟨[1, 2, 3]⟩ (.slice 0 2)).1 (by decide),
   (c8_one_record_contract.1 Nat ⟨[1, 2, 3]⟩ (.int 0)).2 (by decide),
   c8_one_record_contract.2 eagerDs (.slice 0 2)⟩

/-- Claim C6 counterexample: with count 0 the replacement is Python
`str.replace` with an empty replacement, whose deletion junctions can
recreate the marker: `"<gra<graph>ph>"` becomes `"<graph>"`, which still
contains the placeholder; and with `use_graph_start_end` set an empty
`"<g_start><g_end>"` bracket pair is inserted instead of plain removal. -/
theorem c6_counterexample :
    countOcc DEFAULT_GRAPH_TOKEN
        (preprocessGraphValue "<gra<graph>ph>".data 0 false) = 1 ∧
    preprocessGraphValue "<graph>".data 0 true ≠ [] := by
  decide

/-- Claim C6 (amended): with count 0 and `use_graph_start_end` false,
`preprocess_graph` produces exactly the input with each leftmost,
non-overlapping `<graph>` occurrence deleted (scan-and-delete semantics,
which may itself leave a `<graph>` formed at a deletion junction); with
`use_graph_start_end` true each occurrence is replaced by the empty bracket
pair `"<g_start><g_end>"` instead. -/
theorem c6_count_zero_removal :
    (∀ v : Str, preprocessGraphValue v 0 false = removeMarkersSpec v) ∧
    (∀ v : Str, preprocessGraphValue v 0 true =
        pyReplace v DEFAULT_GRAPH_TOKEN
          (DEFAULT_G_START_TOKEN ++ DEFAULT_G_END_TOKEN)) := by
  constructor
  · intro v
    have h0 : replaceToken 0 false = [] := rfl
    have hne : DEFAULT_GRAPH_TOKEN ≠ ([] : Str) := by decide
    simp only [preprocessGraphValue, h0, pyReplace, removeMarkersSpec, if_neg hne]
    exact replaceGo_nil_marker _ _
  · intro v
    have h0 : replaceToken 0 true =
        DEFAULT_G_START_TOKEN ++ DEFAULT_G_END_TOKEN := by decide
    simp only [preprocessGraphValue, h0]

/-- Claim C1 counterexample: a tokenization mismatch (`cur_len = 11` against
`total_len = 10`) with `cur_len ≥ model_max_length = 5` is silently ignored:
the labels keep non-sentinel entries and no warning is printed, refuting the
claim's unconditional "whenever".  (The tokenizer parameter maps `s` to
`len(s) + 1`, a BOS-prefixed character tokenizer.) -/
theorem c1_counterexample :
    curLenV1 (fun s => s.length + 1) " ".data "X".data "R".data
        "q R: aaaaX".data = 11 ∧
    totalLenOf 0 (List.replicate 10 (7 : Int)) = 10 ∧
    maskTargetV1 (fun s => s.length + 1) 0 5 " ".data "X".data "R".data
        "q R: aaaaX".data (List.replicate 10 7) =
      ([-100, -100, -100, -100, -100, 7, 7, 7, 7, 7], false) ∧
    ([-100, -100, -100, -100, -100, 7, 7, 7, 7, 7] : List Int) ≠
      List.replicate 10 IGNORE_INDEX := by
  refine ⟨by decide, by decide, by decide, by decide⟩

/-- Claim C2 counterexample: for a BOS-prefixed character tokenizer the
reconstruction is exact (`cur_len = total_len = 13`), yet the number of
non-ignored label positions is 4 while the answer turn `"ok"` has 2 tokens
(3 with its BOS): the `- 2` offset of `instruction_len` leaves two extra
unmasked positions per round. -/
theorem c2_counterexample :
    curLenV1 (fun s => 1 + s.length) " ".data "X".data "A".data
        "sU: q A: okX".data = 13 ∧
    totalLenOf 0 (List.replicate 13 (7 : Int)) = 13 ∧
    ((maskTargetV1 (fun s => 1 + s.length) 0 100 " ".data "X".data "A".data
          "sU: q A: okX".data (List.replicate 13 7)).1.countP
        (fun x => decide (x ≠ IGNORE_INDEX))) = 4 ∧
    (fun (s : Str) => 1 + s.length) "ok".data = 3 ∧
    ("ok".data.length = 2 ∧ (4 : Nat) ≠ 2 ∧ (4 : Nat) ≠ 3) := by
  refine ⟨by decide, by decide, by decide, by decide, by decide, by decide, by decide⟩

/-- Claim C3 counterexample: with an empty first expansion (`n1 = 0`, no
start/end markers) the first deletion can fuse surrounding text into a new
`<graph>` occurrence which the unchecked second `find` then replaces: on
`"<gr<graph>aph><graph>"` (exactly two occurrences) the result is
`"<g_patch><graph>"`, not the independent replacement
`"<gr" ++ "" ++ "aph>" ++ "<g_patch>"`, and characters outside the two
original spans are destroyed. -/
theorem c3_counterexample :
    countOcc DEFAULT_GRAPH_TOKEN "<gr<graph>aph><graph>".data = 2 ∧
    preprocessGraphLPValue "<gr<graph>aph><graph>".data 0 1 false =
      "<g_patch><graph>".data ∧
    "<g_patch><graph>".data ≠
      "<gr".data ++ replaceToken 0 false ++ "aph>".data ++
        replaceToken 1 false := by
  refine ⟨by decide, by decide, by decide⟩

/-- Claim C5 counterexample: a single-turn conversation whose message is
empty satisfies the claim's hypotheses (neither the system prompt nor the
turn text contains the separator), but the dangling `role + ":"` branch
appends no separator: the prompt `"s#r:"` contains 1 occurrence, not
`N + 1 = 2`. -/
theorem c5_counterexample :
    countOcc conv5.sep conv5.system = 0 ∧
    (∀ p ∈ conv5.messages, countOcc conv5.sep p.2 = 0) ∧
    conv5.getPrompt = .ok "s#r:".data ∧
    countOcc conv5.sep "s#r:".data = 1 ∧
    conv5.messages.length + 1 = 2 ∧ (1 : Nat) ≠ 2 := by
  refine ⟨by decide, by decide, rfl, by decide, by decide, by decide⟩

/-- `maskFrom` touches no length. -/
theorem maskFrom_length (a b : Nat) (t : List Int) :
    (maskFrom a b t).length = t.length := by
  induction t generalizing a b with
  | nil => rfl
  | cons x xs ih => simp [maskFrom, ih]

/-- `pyMask` touches no length. -/
theorem pyMask_length (t : List Int) (a b : Int) :
    (pyMask t a b).length = t.length := maskFrom_length _ _ _

/-- The cursor computed by the round loop does not depend on the masked row. -/
theorem maskRounds_snd (tok : Str → Nat) (sepFull : Str) (rs : List Str)
    (cur : Nat) (t : List Int) :
    (maskRounds tok sepFull rs cur t).2 = roundsCur tok sepFull rs cur := by
  induction rs generalizing cur t with
  | nil => rfl
  | cons rou rest ih =>
    simp only [maskRounds, roundsCur]
    by_cases h1 : rou = []
    · simp [h1]
    · simp only [if_neg h1]
      by_cases h2 : (pySplit sepFull rou).length ≠ 2
      · simp [h2]
      · simp only [if_neg h2, ih]

/-- The round loop touches no length. -/
theorem maskRounds_length (tok : Str → Nat) (sepFull : Str) (rs : List Str)
    (cur : Nat) (t : List Int) :
    (maskRounds tok sepFull rs cur t).1.length = t.length := by
  induction rs generalizing cur t with
  | nil => rfl
  | cons rou rest ih =>
    simp only [maskRounds]
    by_cases h1 : rou = []
    · simp [h1]
    · simp only [if_neg h1]
      by_cases h2 : (pySplit sepFull rou).length ≠ 2
      · simp [h2]
      · simp only [if_neg h2, ih, pyMask_length]

/-- Element access through `zipWith`: entry `i` of the zipped list is built
from entries `i` of the two inputs and nothing else. -/
theorem zipWith_getElem? (f : α → β → γ) (as : List α) (bs : List β) (i : Nat) :
    (List.zipWith f as bs)[i]? =
      (as[i]?.map f).bind fun g => bs[i]?.map g := by
  induction as generalizing bs i with
  | nil => cases bs <;> cases i <;> simp
  | cons a as ih =>
    cases bs with
    | nil => cases i <;> simp
    | cons b bs =>
      cases i with
      | zero => simp
      | succ n => simpa using ih bs n

/-- Mapping every entry to the sentinel is `replicate`. -/
theorem map_const_ignore (l : List Int) :
    l.map (fun _ => IGNORE_INDEX) = List.replicate l.length IGNORE_INDEX := by
  induction l with
  | nil => rfl
  | cons x xs ih => simp [ih, List.replicate_succ]

/-- On a mismatch below `model_max_length`, one example's labels are wiped. -/
theorem maskTargetV1_wipe (tok : Str → Nat) (padId : Int) (maxLen : Nat)
    (sep sep2 role1 conv : Str) (tgt : List Int)
    (hlt : curLenV1 tok sep sep2 role1 conv < maxLen)
    (hne : curLenV1 tok sep sep2 role1 conv ≠ totalLenOf padId tgt) :
    maskTargetV1 tok padId maxLen sep sep2 role1 conv tgt =
      (List.replicate tgt.length IGNORE_INDEX, true) := by
  have hcur : (maskRounds tok (sep ++ role1 ++ ": ".data) (pySplit sep2 conv) 1
      (pyMask tgt 0 1)).2 = curLenV1 tok sep sep2 role1 conv :=
    maskRounds_snd _ _ _ _ _
  have hlen : (maskRounds tok (sep ++ role1 ++ ": ".data) (pySplit sep2 conv) 1
      (pyMask tgt 0 1)).1.length = tgt.length := by
    rw [maskRounds_length, pyMask_length]
  simp only [maskTargetV1, hcur]
  rw [if_pos ⟨hlt, hne⟩, map_const_ignore, pyMask_length, hlen]

/-- Claim C1 (amended): whenever the reconstructed cursor `cur_len` of one
example disagrees with its total non-padding count AND `cur_len` is below
`tokenizer.model_max_length`, `preprocess_v1` sets all label positions of
that single example to `IGNORE_INDEX = -100` and prints the warning; the
returned `input_ids` are untouched, every example's labels depend only on
its own conversation and row, and the run returns normally.  (When
`cur_len ≥ model_max_length` the mismatch is silently ignored, see the
counterexample.) -/
theorem c1_mismatch_soft_fail (tok : Str → Nat) (padId : Int) (maxLen : Nat)
    (sep sep2 role1 : Str) (convs : List Str) (ids : List (List Int))
    (j : Nat) (conv : Str) (tgt : List Int)
    (hc : convs[j]? = some conv) (hi : ids[j]? = some tgt)
    (hlt : curLenV1 tok sep sep2 role1 conv < maxLen)
    (hne : curLenV1 tok sep sep2 role1 conv ≠ totalLenOf padId tgt) :
    (preprocessV1 tok padId maxLen sep sep2 role1 convs ids).1 = ids ∧
    (preprocessV1 tok padId maxLen sep sep2 role1 convs ids).2[j]? =
      some (List.replicate tgt.length IGNORE_INDEX, true) ∧
    ∀ i : Nat,
      (preprocessV1 tok padId maxLen sep sep2 role1 convs ids).2[i]? =
        ((convs[i]?.map
            (fun c t => maskTargetV1 tok padId maxLen sep sep2 role1 c t)).bind
          fun g => ids[i]?.map g) := by
  refine ⟨rfl, ?_, fun i => zipWith_getElem? _ _ _ _⟩
  show (List.zipWith
      (fun c t => maskTargetV1 tok padId maxLen sep sep2 role1 c t) convs ids)[j]? =
    some (List.replicate tgt.length IGNORE_INDEX, true)
  rw [zipWith_getElem? _ _ _ _, hc, hi]
  simp [maskTargetV1_wipe tok padId maxLen sep sep2 role1 conv tgt hlt hne]

/-- Witness for C1 (amended): with `model_max_length = 100` the same
mismatching example (`cur_len = 11` vs `total_len = 10`) is wiped to all
`-100` with the warning flag set. -/
theorem c1_witness :
    (preprocessV1 (fun s => s.length + 1) 0 100 " ".data "X".data "R".data
        ["q R: aaaaX".data] [List.replicate 10 7]).2[0]? =
      some (List.replicate 10 IGNORE_INDEX, true) :=
  (c1_mismatch_soft_fail (fun s => s.length + 1) 0 100 " ".data "X".data
      "R".data ["q R: aaaaX".data] [List.replicate 10 7] 0
      "q R: aaaaX".data (List.replicate 10 7) rfl rfl (by decide)
      (by decide)).2.1

/-- A nonnegative Python slice endpoint normalises to a clamp. -/
theorem pyIdx_ofNat (len n : Nat) : pyIdx len (n : Int) = min n len := by
  unfold pyIdx
  rw [if_neg (by omega), Int.toNat_natCast]

/-- `pyMask` at in-range nonnegative endpoints is `maskFrom`. -/
theorem pyMask_natCast (t : List Int) (a b : Nat) (ha : a ≤ t.length)
    (hb : b ≤ t.length) : pyMask t (a : Int) (b : Int) = maskFrom a b t := by
  unfold pyMask
  rw [pyIdx_ofNat, pyIdx_ofNat, Nat.min_eq_left ha, Nat.min_eq_left hb]

/-- An empty mask window changes nothing. -/
theorem maskFrom_of_le (t : List Int) (a b : Nat) (h : b ≤ a) :
    maskFrom a b t = t := by
  induction t generalizing a b with
  | nil => rfl
  | cons x xs ih =>
    have hcond : ¬(a = 0 ∧ 0 < b) := by omega
    simp only [maskFrom, if_neg hcond, ih (a - 1) (b - 1) (by omega)]

/-- Entries past the mask window are untouched. -/
theorem maskFrom_drop (t : List Int) (a b n : Nat) (h : b ≤ n) :
    (maskFrom a b t).drop n = t.drop n := by
  induction t generalizing a b n with
  | nil => rfl
  | cons x xs ih =>
    cases n with
    | zero =>
      rw [maskFrom_of_le _ _ _ (by omega)]
    | succ m =>
      simp only [maskFrom, List.drop_succ_cons]
      exact ih (a - 1) (b - 1) m (by omega)

/-- Unfolding `maskFrom` at a masked head. -/
theorem maskFrom_zero_cons (b : Nat) (x : Int) (xs : List Int) (hb : 0 < b) :
    maskFrom 0 b (x :: xs) = IGNORE_INDEX :: maskFrom 0 (b - 1) xs := by
  simp [maskFrom, hb]

/-- Unfolding `maskFrom` at an unmasked head. -/
theorem maskFrom_succ_cons (a b : Nat) (x : Int) (xs : List Int) :
    maskFrom (a + 1) b (x :: xs) = x :: maskFrom a (b - 1) xs := by
  simp [maskFrom]

/-- The kept count of a cons. -/
theorem countKept_cons (x : Int) (xs : List Int) :
    countKept (x :: xs) = countKept xs + (if x = IGNORE_INDEX then 0 else 1) := by
  simp only [countKept, List.countP_cons]
  by_cases h : x = IGNORE_INDEX <;> simp [h]

/-- Masking an in-range window of non-sentinel entries removes exactly the
window size from the kept count. -/
theorem maskFrom_count_add (t : List Int) (a b : Nat) (hab : a ≤ b)
    (hbt : b ≤ t.length)
    (hcl : ∀ x ∈ (t.drop a).take (b - a), x ≠ IGNORE_INDEX) :
    countKept t = countKept (maskFrom a b t) + (b - a) := by
  induction t generalizing a b with
  | nil =>
    have : b = 0 := by simpa using hbt
    simp [this, maskFrom]
  | cons x xs ih =>
    cases a with
    | zero =>
      cases b with
      | zero => simp [maskFrom_of_le _ _ _ (le_refl 0)]
      | succ b' =>
        have hx : x ≠ IGNORE_INDEX := by
          apply hcl
          simp [List.take_succ_cons]
        have hxs : ∀ y ∈ (xs.drop 0).take (b' - 0), y ≠ IGNORE_INDEX := by
          intro y hy
          refine hcl y ?_
          simp only [List.drop_zero, Nat.sub_zero] at hy ⊢
          rw [List.take_succ_cons]
          exact List.mem_cons_of_mem x hy
        have hrec := ih 0 b' (Nat.zero_le _) (by simpa using hbt) hxs
        rw [maskFrom_zero_cons _ _ _ (Nat.succ_pos b')]
        rw [countKept_cons, countKept_cons]
        rw [if_neg hx, if_pos rfl]
        simp only [Nat.add_sub_cancel, Nat.sub_zero, Nat.succ_sub_one] at hrec ⊢
        omega
    | succ a' =>
      have hxs : ∀ y ∈ (xs.drop a').take ((b - 1) - a'), y ≠ IGNORE_INDEX := by
        intro y hy
        refine hcl y ?_
        have heq : b - (a' + 1) = (b - 1) - a' := by omega
        rw [List.drop_succ_cons, heq]
        exact hy
      have hrec := ih a' (b - 1) (by omega) (by simp at hbt ⊢; omega) hxs
      rw [maskFrom_succ_cons, countKept_cons, countKept_cons]
      omega

/-- All-non-sentinel rows have kept count equal to their length. -/
theorem countKept_eq_length (t : List Int)
    (h : ∀ x ∈ t, x ≠ IGNORE_INDEX) : countKept t = t.length := by
  unfold countKept
  rw [List.countP_eq_length]
  intro a ha
  simp [h a ha]

/-- A trailing empty round stops the loop exactly where the list ends. -/
theorem maskRounds_append_nilround (tok : Str → Nat) (sepFull : Str)
    (rs : List Str) (cur : Nat) (t : List Int) :
    maskRounds tok sepFull (rs ++ [[]]) cur t = maskRounds tok sepFull rs cur t := by
  induction rs generalizing cur t with
  | nil => rfl
  | cons rou rest ih =>
    simp only [List.cons_append, maskRounds]
    by_cases h1 : rou = []
    · simp [h1]
    · simp only [if_neg h1]
      by_cases h2 : (pySplit sepFull rou).length ≠ 2
      · simp [h2]
      · simp only [if_neg h2]
        exact ih _ _

/-- The round loop of `preprocess_v1`, run to completion on well-formed
rounds: the final cursor adds every round length, the row length is
preserved, and the kept count drops by exactly the (in-range) instruction
lengths. -/
theorem maskRounds_run (tok : Str → Nat) (sepFull : Str) (rs : List Str)
    (cur : Nat) (t : List Int)
    (h1 : ∀ r ∈ rs, r ≠ [])
    (h2 : ∀ r ∈ rs, (pySplit sepFull r).length = 2)
    (h3 : ∀ r ∈ rs, 2 ≤ tok ((pySplit sepFull r).headD [] ++ sepFull))
    (h4 : ∀ r ∈ rs, tok ((pySplit sepFull r).headD [] ++ sepFull) - 2 ≤ tok r)
    (hb : cur + (rs.map tok).sum ≤ t.length)
    (hcl : ∀ x ∈ t.drop cur, x ≠ IGNORE_INDEX) :
    (maskRounds tok sepFull rs cur t).2 = cur + (rs.map tok).sum ∧
    (maskRounds tok sepFull rs cur t).1.length = t.length ∧
    countKept t = countKept (maskRounds tok sepFull rs cur t).1 +
      (rs.map (fun r =>
        tok ((pySplit sepFull r).headD [] ++ sepFull) - 2)).sum := by
  induction rs generalizing cur t with
  | nil => simp [maskRounds]
  | cons rou rest ih =>
    have hbr1 : rou ≠ [] := h1 rou (by simp)
    have hbr2 : (pySplit sepFull rou).length = 2 := h2 rou (by simp)
    have hbr3 : 2 ≤ tok ((pySplit sepFull rou).headD [] ++ sepFull) :=
      h3 rou (by simp)
    have hbr4 : tok ((pySplit sepFull rou).headD [] ++ sepFull) - 2 ≤ tok rou :=
      h4 rou (by simp)
    have hbsum : cur + tok rou + (rest.map tok).sum ≤ t.length := by
      simp only [List.map_cons, List.sum_cons] at hb
      omega
    -- abbreviations for this round
    set instN := tok ((pySplit sepFull rou).headD [] ++ sepFull) - 2 with hinstN
    have hcast : (cur : Int) + ((tok ((pySplit sepFull rou).headD [] ++ sepFull) : Int) - 2) =
        ((cur + instN : Nat) : Int) := by
      omega
    have hmask : pyMask t (cur : Int)
        ((cur : Int) + ((tok ((pySplit sepFull rou).headD [] ++ sepFull) : Int) - 2)) =
        maskFrom cur (cur + instN) t := by
      rw [hcast]
      exact pyMask_natCast t cur (cur + instN) (by omega) (by omega)
    have hne2 : ¬(pySplit sepFull rou).length ≠ 2 := not_not_intro hbr2
    have hstep : maskRounds tok sepFull (rou :: rest) cur t =
        maskRounds tok sepFull rest (cur + tok rou)
          (maskFrom cur (cur + instN) t) := by
      simp only [maskRounds, if_neg hbr1, if_neg hne2]
      rw [hmask]
    have hclean2 : ∀ x ∈ (maskFrom cur (cur + instN) t).drop (cur + tok rou),
        x ≠ IGNORE_INDEX := by
      intro x hx
      rw [maskFrom_drop t cur (cur + instN) (cur + tok rou) (by omega)] at hx
      apply hcl
      have : t.drop (cur + tok rou) = (t.drop cur).drop (tok rou) := by
        rw [List.drop_drop]
      rw [this] at hx
      exact List.drop_subset _ _ hx
    have hb2 : (cur + tok rou) + (rest.map tok).sum ≤
        (maskFrom cur (cur + instN) t).length := by
      rw [maskFrom_length]
      omega
    have hih := ih (cur + tok rou) (maskFrom cur (cur + instN) t)
      (fun r hr => h1 r (by simp [hr])) (fun r hr => h2 r (by simp [hr]))
      (fun r hr => h3 r (by simp [hr])) (fun r hr => h4 r (by simp [hr]))
      hb2 hclean2
    have hcnt : countKept t = countKept (maskFrom cur (cur + instN) t) + instN := by
      have := maskFrom_count_add t cur (cur + instN) (by omega) (by omega)
        (fun x hx => hcl x (List.take_subset _ _ hx))
      simpa using this
    refine ⟨?_, ?_, ?_⟩
    · rw [hstep, hih.1]
      simp only [List.map_cons, List.sum_cons]
      omega
    · rw [hstep, hih.2.1, maskFrom_length]
    · rw [hstep]
      simp only [List.map_cons, List.sum_cons]
      have := hih.2.2
      omega

/-- Per-round token arithmetic: with a BOS-prefixed tokenizer that is
additive at the instruction/answer seam, each round's length splits as
`instruction_len + answer tokens + 2`. -/
theorem sum_round_arith (tok enc : Str → Nat) (sepFull : Str) (rs : List Str)
    (htok : ∀ s, tok s = 1 + enc s)
    (hadd : ∀ r ∈ rs, enc r = enc ((pySplit sepFull r).headD [] ++ sepFull) +
      enc ((pySplit sepFull r).getD 1 []))
    (hpos : ∀ r ∈ rs, 1 ≤ enc ((pySplit sepFull r).headD [] ++ sepFull)) :
    (rs.map tok).sum =
      (rs.map (fun r => tok ((pySplit sepFull r).headD [] ++ sepFull) - 2)).sum +
      (rs.map (fun r => enc ((pySplit sepFull r).getD 1 []))).sum +
      2 * rs.length := by
  induction rs with
  | nil => simp
  | cons rou rest ih =>
    have h1 := hadd rou (by simp)
    have h2 := hpos rou (by simp)
    have hih := ih (fun r hr => hadd r (by simp [hr])) (fun r hr => hpos r (by simp [hr]))
    simp only [List.map_cons, List.sum_cons, List.length_cons]
    rw [htok rou, htok ((pySplit sepFull rou).headD [] ++ sepFull)] at *
    omega

/-- Claim C2 (amended): for a conversation whose rounds are well-formed and
exactly reconstruct the tokenised row (no truncation, no padding), the
number of non-ignored label positions equals the total token count of all
answer turns combined PLUS two extra positions per round (the `- 2` offset
of `instruction_len` leaves the separator-boundary token and one further
token unmasked in every round); the mismatch warning does not fire.  The
tokenizer is `tok s = 1 + enc s` (a leading BOS token over raw token counts
`enc`) and `enc` splits additively at each round's instruction/answer seam. -/
theorem c2_label_count (tok enc : Str → Nat) (padId : Int) (maxLen : Nat)
    (sep sep2 role1 conv : Str) (target : List Int) (rs : List Str)
    (htok : ∀ s, tok s = 1 + enc s)
    (hsplit : pySplit sep2 conv = rs ++ [[]])
    (hr : ∀ r ∈ rs, r ≠ [])
    (hparts : ∀ r ∈ rs, (pySplit (sep ++ role1 ++ ": ".data) r).length = 2)
    (hadd : ∀ r ∈ rs, enc r =
      enc ((pySplit (sep ++ role1 ++ ": ".data) r).headD [] ++
        (sep ++ role1 ++ ": ".data)) +
      enc ((pySplit (sep ++ role1 ++ ": ".data) r).getD 1 []))
    (hpos : ∀ r ∈ rs, 1 ≤
      enc ((pySplit (sep ++ role1 ++ ": ".data) r).headD [] ++
        (sep ++ role1 ++ ": ".data)))
    (hlen : target.length = 1 + (rs.map tok).sum)
    (hpad : ∀ x ∈ target, x ≠ padId)
    (hign : ∀ x ∈ target, x ≠ IGNORE_INDEX) :
    countKept (maskTargetV1 tok padId maxLen sep sep2 role1 conv target).1 =
      (rs.map (fun r =>
        enc ((pySplit (sep ++ role1 ++ ": ".data) r).getD 1 []))).sum +
      2 * rs.length ∧
    (maskTargetV1 tok padId maxLen sep sep2 role1 conv target).2 = false := by
  have hcolon : (": ".data : Str) = [':', ' '] := rfl
  simp only [hcolon] at hparts hadd hpos ⊢
  set sf : Str := sep ++ role1 ++ [':', ' '] with hsf
  have hlen1 : 1 ≤ target.length := by omega
  have h3 : ∀ r ∈ rs, 2 ≤ tok ((pySplit sf r).headD [] ++ sf) := by
    intro r hrr
    rw [htok]
    have := hpos r hrr
    omega
  have h4 : ∀ r ∈ rs, tok ((pySplit sf r).headD [] ++ sf) - 2 ≤ tok r := by
    intro r hrr
    rw [htok ((pySplit sf r).headD [] ++ sf), htok r]
    have := hadd r hrr
    have := hpos r hrr
    omega
  -- the initial mask target[:1]
  have ht0 : pyMask target (0 : Int) (1 : Int) = maskFrom 0 1 target := by
    have := pyMask_natCast target 0 1 (by omega) hlen1
    simpa using this
  have ht0len : (maskFrom 0 1 target).length = target.length := maskFrom_length _ _ _
  have ht0cnt : countKept target = countKept (maskFrom 0 1 target) + 1 := by
    have := maskFrom_count_add target 0 1 (by omega) hlen1
      (fun x hx => hign x (List.take_subset _ _ (by simpa using hx)))
    simpa using this
  have ht0cl : ∀ x ∈ (maskFrom 0 1 target).drop 1, x ≠ IGNORE_INDEX := by
    intro x hx
    rw [maskFrom_drop target 0 1 1 (by omega)] at hx
    exact hign x (List.drop_subset _ _ hx)
  -- the loop run
  have hrun := maskRounds_run tok sf rs 1
    (maskFrom 0 1 target) hr hparts h3 h4 (by rw [ht0len]; omega) ht0cl
  set M := maskRounds tok sf rs 1 (maskFrom 0 1 target) with hM
  -- assemble maskTargetV1
  have htotal : totalLenOf padId target = target.length := by
    unfold totalLenOf
    rw [List.countP_eq_length]
    intro a ha
    simp [hpad a ha]
  have hcurlen : M.2 = target.length := by
    rw [hrun.1]
    omega
  have hlenloop : M.1.length = target.length := by
    rw [hrun.2.1, ht0len]
  have hfinal : pyMask M.1 (M.2 : Int) (M.1.length : Int) = M.1 := by
    rw [hcurlen, hlenloop]
    rw [pyMask_natCast M.1 target.length target.length
      (le_of_eq hlenloop.symm) (le_of_eq hlenloop.symm)]
    exact maskFrom_of_le _ _ _ (le_refl _)
  have hnowipe : ¬(M.2 < maxLen ∧ M.2 ≠ totalLenOf padId target) := by
    rw [hcurlen, htotal]
    simp
  have hmt : maskTargetV1 tok padId maxLen sep sep2 role1 conv target =
      (M.1, false) := by
    simp only [maskTargetV1]
    rw [← hsf, hsplit, maskRounds_append_nilround, ht0, ← hM]
    rw [if_neg hnowipe, hfinal]
  rw [hmt]
  refine ⟨?_, rfl⟩
  show countKept M.1 =
    (List.map (fun r => enc ((pySplit sf r).getD 1 [])) rs).sum + 2 * rs.length
  have hkept := countKept_eq_length target hign
  have harith := sum_round_arith tok enc sf rs htok hadd hpos
  have hcnt := hrun.2.2
  omega

/-- Nonempty patterns do not occur at positions past the end. -/
theorem occAt_false_of_le (pat s : Str) (i : Nat) (hpat : pat ≠ [])
    (h : s.length ≤ i) : occAt pat s i = false := by
  obtain ⟨c, t, rfl⟩ := List.exists_cons_of_ne_nil hpat
  unfold occAt
  rw [List.drop_eq_nil_of_le h]
  rfl

/-- At an occurrence of a nonempty pattern, the string holds the pattern's
head character. -/
theorem occAt_head (pat s : Str) (i : Nat) (c0 : Char) (ct : Str)
    (hpat : pat = c0 :: ct) (h : occAt pat s i = true) : s[i]? = some c0 := by
  unfold occAt at h
  rw [List.isPrefixOf_iff_prefix] at h
  obtain ⟨t, ht⟩ := h
  have hh : (s.drop i).head? = some c0 := by
    rw [hpat] at ht
    rw [← ht]
    rfl
  rwa [List.head?_drop] at hh

/-- Occurrence positions of `pat` in `a ++ u` split into the positions inside
`a`'s index range and the (shifted) occurrences in `u`. -/
theorem countOcc_append_split (pat a u : Str) :
    countOcc pat (a ++ u) =
      (List.range a.length).countP (fun i => occAt pat (a ++ u) i) +
      countOcc pat u := by
  unfold countOcc
  have hlen : (a ++ u).length + 1 = a.length + (u.length + 1) := by
    simp [List.length_append]
    omega
  rw [hlen, List.range_add, List.countP_append, List.countP_map]
  congr 1
  refine List.countP_congr ?_
  intro i hi
  have hsh : occAt pat (a ++ u) (a.length + i) = occAt pat u i := by
    unfold occAt
    rw [List.drop_append]
  simp [Function.comp, hsh]

/-- A block containing no character of `pat` contributes no occurrence
positions of its own. -/
theorem countOcc_sepfree_append (sep a u : Str) (hsep : sep ≠ [])
    (ha : ∀ ch ∈ a, ch ∉ sep) : countOcc sep (a ++ u) = countOcc sep u := by
  obtain ⟨c0, ct, hc⟩ := List.exists_cons_of_ne_nil hsep
  rw [countOcc_append_split]
  have hzero : (List.range a.length).countP
      (fun i => occAt sep (a ++ u) i) = 0 := by
    rw [List.countP_eq_zero]
    intro i hi
    simp only [List.mem_range] at hi
    intro hocc
    have hc0 : (a ++ u)[i]? = some c0 := occAt_head sep (a ++ u) i c0 ct hc hocc
    rw [List.getElem?_append_left hi] at hc0
    exact ha c0 (List.getElem?_mem hc0) (by rw [hc]; exact List.mem_cons_self c0 ct)
  omega

/-- The empty string holds no occurrence of a nonempty pattern. -/
theorem countOcc_nil (pat : Str) (hpat : pat ≠ []) : countOcc pat [] = 0 := by
  unfold countOcc
  rw [List.countP_eq_zero]
  intro i hi
  simp at hi
  have hi0 : i = 0 := by omega
  subst hi0
  rw [occAt_false_of_le pat [] 0 hpat (by simp)]
  simp

/-- A predicate true at 0 and false elsewhere counts once over a range. -/
theorem countP_range_one (p : Nat → Bool) (n : Nat) (hn : 0 < n)
    (h0 : p 0 = true) (hi : ∀ i, 0 < i → i < n → p i = false) :
    (List.range n).countP p = 1 := by
  induction n with
  | zero => omega
  | succ m ih =>
    rw [List.range_succ, List.countP_append]
    cases Nat.eq_zero_or_pos m with
    | inl h =>
      subst h
      simp [h0]
    | inr h =>
      rw [ih h (fun i hip hil => hi i hip (by omega))]
      simp [hi m h (by omega)]

/-- The head of a list is a member. -/
theorem mem_of_head?_eq (l : List Char) (c : Char) (h : l.head? = some c) :
    c ∈ l := by
  cases l with
  | nil => simp at h
  | cons x t =>
    simp only [List.head?_cons, Option.some.injEq] at h
    subst h
    exact List.mem_cons_self x t

/-- A leading copy of the separator contributes exactly one occurrence when
the continuation starts with a non-separator character (no straddling). -/
theorem countOcc_sep_leading (sep u : Str) (hsep : sep ≠ [])
    (hu : ∀ ch, u.head? = some ch → ch ∉ sep) :
    countOcc sep (sep ++ u) = 1 + countOcc sep u := by
  rw [countOcc_append_split]
  have hsepl : 0 < sep.length := List.length_pos.mpr hsep
  have hone : (List.range sep.length).countP
      (fun i => occAt sep (sep ++ u) i) = 1 := by
    refine countP_range_one _ _ hsepl ?_ ?_
    · show sep.isPrefixOf ((sep ++ u).drop 0) = true
      rw [List.drop_zero, List.isPrefixOf_iff_prefix]
      exact List.prefix_append sep u
    · intro i hipos hilt
      refine Bool.eq_false_iff.mpr fun hocc => ?_
      unfold occAt at hocc
      rw [List.isPrefixOf_iff_prefix,
        List.drop_append_of_le_length (le_of_lt hilt)] at hocc
      obtain ⟨t, ht⟩ := hocc
      have hu2 : u = sep.drop (sep.drop i).length ++ t := by
        calc u = (sep.drop i ++ u).drop (sep.drop i).length :=
              (List.drop_left _ _).symm
          _ = (sep ++ t).drop (sep.drop i).length := by rw [← ht]
          _ = sep.drop (sep.drop i).length ++ t :=
              List.drop_append_of_le_length (by simp)
      have hne : sep.drop (sep.drop i).length ≠ [] := by
        intro hemp
        have := congrArg List.length hemp
        simp [List.length_drop] at this
        omega
      obtain ⟨ch, ct2, hct⟩ := List.exists_cons_of_ne_nil hne
      have hcmem : ch ∈ sep := by
        have hmem : ch ∈ sep.drop (sep.drop i).length := by
          rw [hct]
          exact List.mem_cons_self _ _
        exact List.drop_subset _ _ hmem
      have hhd : u.head? = some ch := by
        rw [hu2, hct]
        rfl
      exact hu ch hhd hcmem
  omega

/-- The separator count of the single-style turn block, preceded by one
separator copy: one occurrence per (nonempty-message) turn plus the leading
one, under the no-straddling character conditions. -/
theorem countOcc_turnsSingle (sep : Str) (hsep : sep ≠ [])
    (hcol : (':' : Char) ∉ sep) (hsp : (' ' : Char) ∉ sep)
    (msgs : List (Str × Str))
    (hms : ∀ p ∈ msgs,
      (∀ ch ∈ p.1, ch ∉ sep) ∧ (∀ ch ∈ p.2, ch ∉ sep) ∧ p.2 ≠ []) :
    countOcc sep (sep ++ turnsSingle sep msgs) = 1 + msgs.length := by
  induction msgs with
  | nil =>
    rw [show turnsSingle sep [] = [] from rfl]
    rw [countOcc_sep_leading sep [] hsep (by intro ch h; simp at h)]
    rw [countOcc_nil sep hsep]
    simp
  | cons pm rest ih =>
    obtain ⟨role, msg⟩ := pm
    have h1 := hms (role, msg) (by simp)
    have hrest : ∀ p ∈ rest,
        (∀ ch ∈ p.1, ch ∉ sep) ∧ (∀ ch ∈ p.2, ch ∉ sep) ∧ p.2 ≠ [] :=
      fun p hp => hms p (List.mem_cons_of_mem _ hp)
    have hmsgne : msg ≠ [] := h1.2.2
    have hchunk : ∀ ch ∈ role ++ ": ".data ++ msg, ch ∉ sep := by
      intro ch hch
      rcases List.mem_append.mp hch with h | h
      · rcases List.mem_append.mp h with h2 | h2
        · exact h1.1 ch h2
        · have hd : (": ".data : Str) = [':', ' '] := rfl
          rw [hd] at h2
          rcases (by simpa using h2 : ch = ':' ∨ ch = ' ') with rfl | rfl
          · exact hcol
          · exact hsp
      · exact h1.2.1 ch h
    have hchne : role ++ ": ".data ++ msg ≠ [] := by
      intro h
      have := congrArg List.length h
      have hd : (": ".data : Str).length = 2 := rfl
      simp [List.length_append, hd] at this
    have hheadu : ∀ ch,
        ((role ++ ": ".data ++ msg) ++ (sep ++ turnsSingle sep rest)).head? =
          some ch → ch ∉ sep := by
      intro ch hch
      rw [List.head?_append_of_ne_nil _ hchne] at hch
      exact hchunk ch (mem_of_head?_eq _ _ hch)
    rw [show turnsSingle sep ((role, msg) :: rest) =
        (role ++ ": ".data ++ msg ++ sep) ++ turnsSingle sep rest from by
      simp [turnsSingle, hmsgne]]
    have hassoc : (role ++ ": ".data ++ msg ++ sep) ++ turnsSingle sep rest =
        (role ++ ": ".data ++ msg) ++ (sep ++ turnsSingle sep rest) := by
      simp [List.append_assoc]
    rw [hassoc]
    rw [countOcc_sep_leading sep _ hsep hheadu]
    rw [countOcc_sepfree_append sep _ _ hsep hchunk]
    rw [ih hrest]
    simp [List.length_cons]
    omega

/-- Claim C5 (amended): for a single-separator conversation in which every
message is nonempty and the no-straddling conditions hold (no character of
the separator occurs in the system prompt, the role names or the messages,
and the separator contains neither ':' nor ' '), the rendered prompt
contains exactly N + 1 occurrences of the separator, N the number of turns.
(An empty-message turn appends the dangling `role + ":"` with no separator,
see the counterexample.) -/
theorem c5_single_sep_count (c : Conversation)
    (hstyle : c.sepStyle = SeparatorStyle.SINGLE)
    (hsep : c.sep ≠ [])
    (hsys : ∀ ch ∈ c.system, ch ∉ c.sep)
    (hcol : (':' : Char) ∉ c.sep) (hsp : (' ' : Char) ∉ c.sep)
    (hmsgs : ∀ p ∈ c.messages,
      (∀ ch ∈ p.1, ch ∉ c.sep) ∧ (∀ ch ∈ p.2, ch ∉ c.sep) ∧ p.2 ≠ []) :
    c.getPrompt = .ok (c.system ++ c.sep ++ turnsSingle c.sep c.messages) ∧
    countOcc c.sep (c.system ++ c.sep ++ turnsSingle c.sep c.messages) =
      c.messages.length + 1 := by
  constructor
  · unfold Conversation.getPrompt
    rw [if_pos hstyle]
  · have hassoc : c.system ++ c.sep ++ turnsSingle c.sep c.messages =
        c.system ++ (c.sep ++ turnsSingle c.sep c.messages) := by
      simp [List.append_assoc]
    rw [hassoc, countOcc_sepfree_append _ _ _ hsep hsys,
      countOcc_turnsSingle c.sep hsep hcol hsp c.messages hmsgs]
    omega

/-- Witness for C5 (amended): system `"s"`, one turn `("r", "m")`,
separator `"#"`: the prompt `"s#r: m#"` has exactly 2 occurrences. -/
theorem c5_witness :
    Conversation.getPrompt
        { system := "s".data, roles := ["r".data],
          messages := [("r".data, "m".data)], offset := 0,
          sepStyle := SeparatorStyle.SINGLE, sep := "#".data } =
      .ok "s#r: m#".data ∧
    countOcc "#".data "s#r: m#".data = 2 := by
  have h := c5_single_sep_count
    { system := "s".data, roles := ["r".data],
      messages := [("r".data, "m".data)], offset := 0,
      sepStyle := SeparatorStyle.SINGLE, sep := "#".data }
    rfl (by decide) (by decide) (by decide) (by decide) (by decide)
  exact ⟨h.1, h.2⟩

/-- A least satisfying index is found by `find?` over a range. -/
theorem find?_range_eq_some (p : Nat → Bool) (n i : Nat) (hi : i < n)
    (hp : p i = true) (hmin : ∀ j, j < i → p j = false) :
    (List.range n).find? p = some i := by
  induction n with
  | zero => omega
  | succ m ih =>
    rw [List.range_succ, List.find?_append]
    rcases Nat.lt_or_ge i m with h | h
    · rw [ih h]
      rfl
    · have him : i = m := by omega
      subst him
      have hnone : (List.range i).find? p = none := by
        rw [List.find?_eq_none]
        intro x hx
        simp only [List.mem_range] at hx
        simp [hmin x hx]
      rw [hnone, List.find?_cons_of_pos _ hp]
      rfl

/-- `pyFindPos` returns the least occurrence position. -/
theorem pyFindPos_eq_some (pat s : Str) (i : Nat) (hi : i ≤ s.length)
    (hocc : occAt pat s i = true) (hmin : ∀ j, j < i → occAt pat s j = false) :
    pyFindPos pat s = some i :=
  find?_range_eq_some _ _ _ (by omega) hocc hmin

/-- Occurrences of a nonempty pattern start inside the string. -/
theorem lt_length_of_occAt (pat s : Str) (i : Nat) (hpat : pat ≠ [])
    (h : occAt pat s i = true) : i < s.length := by
  by_contra hge
  rw [occAt_false_of_le pat s i hpat (by omega)] at h
  exact absurd h (by simp)

/-- Occurrence positions shift across an appended prefix. -/
theorem occAt_append_right (pat a u : Str) (i : Nat) :
    occAt pat (a ++ u) (a.length + i) = occAt pat u i := by
  unfold occAt
  rw [List.drop_append]

/-- A window fully inside the common prefix does not see the continuation. -/
theorem occAt_eq_of_within (pat a u v : Str) (j : Nat)
    (hj : j + pat.length ≤ a.length) :
    occAt pat (a ++ u) j = occAt pat (a ++ v) j := by
  have key : ∀ w : Str, occAt pat (a ++ w) j = pat.isPrefixOf (a.drop j) := by
    intro w
    unfold occAt
    rw [List.drop_append_of_le_length (by omega)]
    cases hb : pat.isPrefixOf (a.drop j) with
    | false =>
      refine Bool.eq_false_iff.mpr fun htrue => ?_
      rw [List.isPrefixOf_iff_prefix, List.prefix_iff_eq_take] at htrue
      have h2 : pat.isPrefixOf (a.drop j) = true := by
        rw [List.isPrefixOf_iff_prefix, List.prefix_iff_eq_take]
        refine htrue.trans (List.take_append_of_le_length ?_)
        simp only [List.length_drop]
        omega
      rw [hb] at h2
      exact absurd h2 (by simp)
    | true =>
      rw [List.isPrefixOf_iff_prefix] at hb ⊢
      exact hb.trans (List.prefix_append _ _)
  rw [key u, key v]

/-- No `<graph>` occurrence can start inside a concatenation of
`<g_patch>` / `<g_start>` / `<g_end>` tokens, whatever follows: every `<`
inside such a concatenation opens a full bracket token whose third character
is `_`, not `r`. -/
theorem no_graph_in_token_join (ts : List Str)
    (hts : ∀ t ∈ ts, t = DEFAULT_GRAPH_PATCH_TOKEN ∨ t = DEFAULT_G_START_TOKEN ∨
      t = DEFAULT_G_END_TOKEN) :
    ∀ (u : Str) (j : Nat), j < ts.flatten.length →
      occAt DEFAULT_GRAPH_TOKEN (ts.flatten ++ u) j = false := by
  induction ts with
  | nil =>
    intro u j hj
    simp at hj
  | cons t rest ih =>
    intro u j hj
    have htok := hts t (List.mem_cons_self t rest)
    have hrest := fun t' h => hts t' (List.mem_cons_of_mem _ h)
    rw [List.flatten_cons, List.length_append] at hj
    rw [List.flatten_cons, List.append_assoc]
    rcases Nat.lt_or_ge j t.length with hcase | hcase
    · refine Bool.eq_false_iff.mpr fun hocc => ?_
      rcases Nat.eq_zero_or_pos j with hj0 | hjpos
      · subst hj0
        unfold occAt at hocc
        rw [List.drop_zero, List.isPrefixOf_iff_prefix,
          List.prefix_iff_eq_take] at hocc
        have hlen7 : DEFAULT_GRAPH_TOKEN.length ≤ t.length := by
          rcases htok with rfl | rfl | rfl <;> decide
        rw [List.take_append_of_le_length hlen7] at hocc
        rcases htok with rfl | rfl | rfl <;> exact absurd hocc (by decide)
      · have hhd := occAt_head DEFAULT_GRAPH_TOKEN _ j '<' "graph>".data rfl hocc
        rw [List.getElem?_append_left hcase] at hhd
        have hmem : '<' ∈ t.drop 1 := by
          have hd2 : (t.drop 1)[j - 1]? = some '<' := by
            rw [List.getElem?_drop]
            rw [show 1 + (j - 1) = j from by omega]
            exact hhd
          exact List.getElem?_mem hd2
        rcases htok with rfl | rfl | rfl <;> exact absurd hmem (by decide)
    · have hsh := occAt_append_right DEFAULT_GRAPH_TOKEN t (rest.flatten ++ u)
        (j - t.length)
      rw [show t.length + (j - t.length) = j from by omega] at hsh
      rw [hsh]
      exact ih hrest u (j - t.length) (by omega)

/-- `replaceToken` is a concatenation of patch/start/end tokens. -/
theorem replaceToken_join (n : Nat) (b : Bool) :
    ∃ ts : List Str,
      (∀ t ∈ ts, t = DEFAULT_GRAPH_PATCH_TOKEN ∨ t = DEFAULT_G_START_TOKEN ∨
        t = DEFAULT_G_END_TOKEN) ∧ replaceToken n b = ts.flatten := by
  cases b with
  | false =>
    refine ⟨List.replicate n DEFAULT_GRAPH_PATCH_TOKEN, ?_, rfl⟩
    intro t ht
    exact Or.inl (List.eq_of_mem_replicate ht)
  | true =>
    refine ⟨DEFAULT_G_START_TOKEN ::
      (List.replicate n DEFAULT_GRAPH_PATCH_TOKEN ++ [DEFAULT_G_END_TOKEN]),
      ?_, ?_⟩
    · intro t ht
      rcases List.mem_cons.mp ht with rfl | h2
      · exact Or.inr (Or.inl rfl)
      · rcases List.mem_append.mp h2 with h3 | h3
        · exact Or.inl (List.eq_of_mem_replicate h3)
        · have := List.mem_singleton.mp h3
          subst this
          exact Or.inr (Or.inr rfl)
    · simp [replaceToken, List.flatten_cons, List.flatten_append,
        List.append_assoc]

/-- A nonempty `replaceToken` starts with the character `<`. -/
theorem replaceToken_head (n : Nat) (b : Bool) (hne : replaceToken n b ≠ []) :
    ∃ w, replaceToken n b = '<' :: w := by
  cases b with
  | true =>
    exact ⟨("g_start>".data ++
      (List.replicate n DEFAULT_GRAPH_PATCH_TOKEN).flatten) ++
      DEFAULT_G_END_TOKEN, rfl⟩
  | false =>
    cases n with
    | zero => exact absurd rfl hne
    | succ m =>
      exact ⟨"g_patch>".data ++
        (List.replicate m DEFAULT_GRAPH_PATCH_TOKEN).flatten, rfl⟩

/-- Claim C3 (amended): for a turn text with exactly two `<graph>`
occurrences, provided the first expansion is nonempty (`n1 ≥ 1` or
`use_graph_start_end` set), `preprocess_graph_LP` replaces the first
occurrence by the `n1`-expansion and the second by the `n2`-expansion,
leaving every character outside the two replaced spans unchanged.  (With an
empty first expansion the deletion can fuse a new occurrence out of
surrounding text, see the counterexample.) -/
theorem c3_two_marker_expansion (pre mid post : Str) (n1 n2 : Nat) (b : Bool)
    (hne : replaceToken n1 b ≠ [])
    (hocc : ∀ i <
        (pre ++ DEFAULT_GRAPH_TOKEN ++ mid ++ DEFAULT_GRAPH_TOKEN ++ post).length,
      occAt DEFAULT_GRAPH_TOKEN
        (pre ++ DEFAULT_GRAPH_TOKEN ++ mid ++ DEFAULT_GRAPH_TOKEN ++ post) i =
        true →
      (i = pre.length ∨
        i = pre.length + DEFAULT_GRAPH_TOKEN.length + mid.length)) :
    preprocessGraphLPValue
        (pre ++ DEFAULT_GRAPH_TOKEN ++ mid ++ DEFAULT_GRAPH_TOKEN ++ post)
        n1 n2 b =
      pre ++ replaceToken n1 b ++ mid ++ replaceToken n2 b ++ post := by
  have hg7 : DEFAULT_GRAPH_TOKEN.length = 7 := rfl
  have hgne : DEFAULT_GRAPH_TOKEN ≠ ([] : Str) := by decide
  have htext : pre ++ DEFAULT_GRAPH_TOKEN ++ mid ++ DEFAULT_GRAPH_TOKEN ++ post =
      pre ++ (DEFAULT_GRAPH_TOKEN ++ (mid ++ (DEFAULT_GRAPH_TOKEN ++ post))) := by
    simp [List.append_assoc]
  rw [htext] at hocc ⊢
  set T := pre ++ (DEFAULT_GRAPH_TOKEN ++ (mid ++ (DEFAULT_GRAPH_TOKEN ++ post)))
    with hT
  have hTlen : T.length =
      pre.length + (7 + (mid.length + (7 + post.length))) := by
    rw [hT]
    simp [List.length_append, hg7]
  -- Step 1: the first find lands on the first marker.
  have hocc1 : occAt DEFAULT_GRAPH_TOKEN T pre.length = true := by
    unfold occAt
    rw [hT, List.drop_left, List.isPrefixOf_iff_prefix]
    exact List.prefix_append _ _
  have hmin1 : ∀ j, j < pre.length → occAt DEFAULT_GRAPH_TOKEN T j = false := by
    intro j hj
    refine Bool.eq_false_iff.mpr fun htrue => ?_
    have hb := lt_length_of_occAt _ _ _ hgne htrue
    rcases hocc j hb htrue with h | h <;> omega
  have hfind1 : pyFindPos DEFAULT_GRAPH_TOKEN T = some pre.length :=
    pyFindPos_eq_some _ _ _ (by omega) hocc1 hmin1
  have hcontains : pyContains DEFAULT_GRAPH_TOKEN T = true := by
    unfold pyContains
    rw [hfind1]
    rfl
  have hpyfind1 : pyFind DEFAULT_GRAPH_TOKEN T = (pre.length : Int) := by
    unfold pyFind
    rw [hfind1]
  -- Step 2: the first splice.
  have hslice1a : pySliceTo T (pre.length : Int) = pre := by
    unfold pySliceTo
    rw [pyIdx_ofNat, Nat.min_eq_left (by omega), hT, List.take_left]
  have hslice1b :
      pySliceFrom T ((pre.length : Int) + (DEFAULT_GRAPH_TOKEN.length : Int)) =
      mid ++ (DEFAULT_GRAPH_TOKEN ++ post) := by
    unfold pySliceFrom
    have hcast : (pre.length : Int) + (DEFAULT_GRAPH_TOKEN.length : Int) =
        ((pre.length + 7 : Nat) : Int) := by
      rw [hg7]
      omega
    rw [hcast, pyIdx_ofNat, Nat.min_eq_left (by omega), hT]
    rw [show pre.length + 7 = pre.length + DEFAULT_GRAPH_TOKEN.length from by
      rw [hg7]]
    rw [List.drop_append, List.drop_left]
  -- Step 3: the second find on the spliced string.
  set R1 := replaceToken n1 b with hR1
  set B : Str := mid ++ (DEFAULT_GRAPH_TOKEN ++ post) with hB
  set V1 := (pre ++ R1) ++ B with hV1
  have hV1assoc : V1 = pre ++ (R1 ++ B) := by
    rw [hV1, List.append_assoc]
  have hV1len : V1.length = pre.length + R1.length + mid.length + 7 + post.length := by
    rw [hV1, hB]
    simp [List.length_append, hg7]
    omega
  have hocc2 : occAt DEFAULT_GRAPH_TOKEN V1
      (pre.length + R1.length + mid.length) = true := by
    unfold occAt
    have hstep : V1.drop (pre.length + R1.length + mid.length) =
        DEFAULT_GRAPH_TOKEN ++ post := by
      have hA : (pre ++ R1).length + mid.length =
          pre.length + R1.length + mid.length := by
        simp [List.length_append]
      rw [hV1, hB, ← hA, List.drop_append]
      exact List.drop_left mid _
    rw [hstep, List.isPrefixOf_iff_prefix]
    exact List.prefix_append _ _
  have hmin2 : ∀ j, j < pre.length + R1.length + mid.length →
      occAt DEFAULT_GRAPH_TOKEN V1 j = false := by
    intro j hj
    rcases Nat.lt_or_ge j pre.length with hjpre | hjpre
    · rcases le_or_lt (j + 7) pre.length with hwin | hwin
      · -- window fully inside pre: equal to an occurrence in the original
        have he : occAt DEFAULT_GRAPH_TOKEN (pre ++ (R1 ++ B)) j =
            occAt DEFAULT_GRAPH_TOKEN
              (pre ++ (DEFAULT_GRAPH_TOKEN ++ (mid ++ (DEFAULT_GRAPH_TOKEN ++ post)))) j :=
          occAt_eq_of_within DEFAULT_GRAPH_TOKEN pre _ _ j (by rw [hg7]; omega)
        rw [hV1assoc, he]
        exact hmin1 j hjpre
      · -- junction window: would need a second `<` inside `<graph>`
        refine Bool.eq_false_iff.mpr fun htrue => ?_
        obtain ⟨w, hw⟩ := replaceToken_head n1 b hne
        have hwR1 : R1 = '<' :: w := hR1.trans hw
        rw [hV1assoc] at htrue
        unfold occAt at htrue
        rw [List.drop_append_of_le_length (by omega),
          List.isPrefixOf_iff_prefix, List.prefix_iff_eq_take,
          List.take_append_eq_append_take,
          List.take_of_length_le (by simp [List.length_drop]; omega)] at htrue
        have hdlen : (pre.drop j).length = pre.length - j := List.length_drop _ _
        obtain ⟨k, hk⟩ : ∃ k, DEFAULT_GRAPH_TOKEN.length - (pre.drop j).length =
            k + 1 := ⟨DEFAULT_GRAPH_TOKEN.length - (pre.drop j).length - 1, by
          rw [hg7, hdlen]; omega⟩
        rw [hk, hwR1] at htrue
        rw [show (('<' :: w) ++ B).take (k + 1) =
            '<' :: (w ++ B).take k from rfl] at htrue
        have hdne : pre.drop j ≠ [] := by
          intro hemp
          have := congrArg List.length hemp
          rw [hdlen] at this
          simp at this
          omega
        obtain ⟨d0, dt, hd⟩ := List.exists_cons_of_ne_nil hdne
        rw [hd] at htrue
        have htail : DEFAULT_GRAPH_TOKEN.drop 1 =
            dt ++ '<' :: (w ++ B).take k := by
          rw [htrue]
          rfl
        have : '<' ∈ DEFAULT_GRAPH_TOKEN.drop 1 := by
          rw [htail]
          exact List.mem_append.mpr (Or.inr (List.mem_cons_self _ _))
        exact absurd this (by decide)
    · rcases Nat.lt_or_ge j (pre.length + R1.length) with hjr1 | hjr1
      · -- inside the first expansion: no marker starts in a token join
        obtain ⟨ts, hts, hjoin⟩ := replaceToken_join n1 b
        have hsh := occAt_append_right DEFAULT_GRAPH_TOKEN pre (R1 ++ B)
          (j - pre.length)
        rw [show pre.length + (j - pre.length) = j from by omega] at hsh
        rw [hV1assoc, hsh, ← hR1] at *
        rw [show (R1 : Str) = ts.flatten from by rw [hR1, hjoin]]
        exact no_graph_in_token_join ts hts B (j - pre.length) (by
          have : ts.flatten.length = R1.length := by rw [← hjoin, hR1]
          omega)
      · -- inside `mid`: an occurrence there would be a third original one
        refine Bool.eq_false_iff.mpr fun htrue => ?_
        have hA : ((pre ++ R1) : Str).length = pre.length + R1.length := by
          simp [List.length_append]
        have hsh := occAt_append_right DEFAULT_GRAPH_TOKEN (pre ++ R1) B
          (j - (pre.length + R1.length))
        rw [hA, show pre.length + R1.length + (j - (pre.length + R1.length)) = j
          from by omega] at hsh
        rw [hV1] at htrue
        rw [hsh] at htrue
        -- transport to the original string
        have hsh2 := occAt_append_right DEFAULT_GRAPH_TOKEN pre
          (DEFAULT_GRAPH_TOKEN ++ B) (7 + (j - (pre.length + R1.length)))
        have hsh3 := occAt_append_right DEFAULT_GRAPH_TOKEN DEFAULT_GRAPH_TOKEN B
          (j - (pre.length + R1.length))
        rw [hg7] at hsh3
        rw [hsh3] at hsh2
        rw [htrue] at hsh2
        -- hsh2 : occAt _ (pre ++ (γ ++ B)) (pre.length + (7 + j')) = true
        have hbound : pre.length + (7 + (j - (pre.length + R1.length))) <
            T.length := by
          rw [hTlen]
          omega
        rw [← hT] at hsh2
        rcases hocc _ hbound hsh2 with h | h
        · omega
        · rw [hg7] at h
          omega
  have hfind2 : pyFindPos DEFAULT_GRAPH_TOKEN V1 =
      some (pre.length + R1.length + mid.length) :=
    pyFindPos_eq_some _ _ _ (by omega) hocc2 hmin2
  have hpyfind2 : pyFind DEFAULT_GRAPH_TOKEN V1 =
      ((pre.length + R1.length + mid.length : Nat) : Int) := by
    unfold pyFind
    rw [hfind2]
  -- Step 4: the second splice.
  have hslice2a : pySliceTo V1
      ((pre.length + R1.length + mid.length : Nat) : Int) = (pre ++ R1) ++ mid := by
    unfold pySliceTo
    rw [pyIdx_ofNat, Nat.min_eq_left (by omega)]
    have hA : ((pre ++ R1) : Str).length = pre.length + R1.length := by
      simp [List.length_append]
    rw [hV1, hB, show pre.length + R1.length + mid.length =
      ((pre ++ R1) : Str).length + mid.length from by rw [hA]]
    rw [List.take_append]
    rw [show (mid ++ (DEFAULT_GRAPH_TOKEN ++ post)).take mid.length =
      mid from List.take_left mid (DEFAULT_GRAPH_TOKEN ++ post)]
  have hslice2b : pySliceFrom V1
      (((pre.length + R1.length + mid.length : Nat) : Int) +
        (DEFAULT_GRAPH_TOKEN.length : Int)) = post := by
    unfold pySliceFrom
    have hcast : ((pre.length + R1.length + mid.length : Nat) : Int) +
        (DEFAULT_GRAPH_TOKEN.length : Int) =
        ((pre.length + R1.length + (mid.length + 7) : Nat) : Int) := by
      rw [hg7]
      omega
    rw [hcast, pyIdx_ofNat, Nat.min_eq_left (by omega)]
    have hA : ((pre ++ R1) : Str).length = pre.length + R1.length := by
      simp [List.length_append]
    rw [hV1, hB, show pre.length + R1.length + (mid.length + 7) =
      ((pre ++ R1) : Str).length + (mid.length + 7) from by rw [hA]]
    rw [List.drop_append]
    rw [show mid.length + 7 = mid.length + DEFAULT_GRAPH_TOKEN.length from by
      rw [hg7]]
    rw [List.drop_append, List.drop_left]
  -- Assemble.
  simp only [preprocessGraphLPValue]
  rw [if_pos hcontains]
  rw [hpyfind1, hslice1a, hslice1b]
  rw [← hR1, ← hV1]
  rw [hpyfind2, hslice2a, hslice2b]

/-- Witness for C3 (amended): `"A<graph>B<graph>C"` with `n1 = 2`, `n2 = 3`
and no start/end markers expands to the two independent patch runs. -/
theorem c3_witness :
    preprocessGraphLPValue "A<graph>B<graph>C".data 2 3 false =
      "A<g_patch><g_patch>B<g_patch><g_patch><g_patch>C".data := by
  have h := c3_two_marker_expansion "A".data "B".data "C".data 2 3 false
    (by decide) (by decide)
  exact h

/-- Witness for C2 (amended) at the concrete exactly-reconstructing example:
the single round `"sU: q A: ok"` has answer `"ok"` (2 tokens under the char
encoder), and the kept label count is `2 + 2·1 = 4`. -/
theorem c2_witness :
    countKept (maskTargetV1 (fun s => 1 + s.length) 0 100 " ".data "X".data
        "A".data "sU: q A: okX".data (List.replicate 13 7)).1 = 4 ∧
    (maskTargetV1 (fun s => 1 + s.length) 0 100 " ".data "X".data "A".data
        "sU: q A: okX".data (List.replicate 13 7)).2 = false := by
  have h := c2_label_count (fun s => 1 + s.length) (fun s => s.length) 0 100
    " ".data "X".data "A".data "sU: q A: okX".data (List.replicate 13 7)
    ["sU: q A: ok".data] (fun s => rfl) (by decide) (by decide) (by decide)
    (by decide) (by decide) (by decide) (by decide) (by decide)
  refine ⟨?_, h.2⟩
  rw [h.1]
  decide

end Ggfm
